import Mathlib

/-!
Verification of the FriendlyARM GPIO/PWM/EINT controller.

This file shallowly embeds the register-access and timing-solver engine of
the library (`fgpio/fgpio.py`, with the `boards/nanopi.py` configuration) in
Lean 4 and proves properties of the embedding.

Modelling conventions:
* The source is Python 2.  Integer arithmetic is embedded as `Nat`/`Int`
  arithmetic; `x / y` and `x % y` on Python 2 ints are `Nat.div`/`Nat.mod`;
  Python float arithmetic in the PWM solver is embedded as exact rational
  (`Rat`) arithmetic; Python 2 `round` (round half away from zero) is
  `pyRound` below.
* A 32-bit register word read through `struct.unpack('I', ...)` is a `Nat`
  `< 2 ^ 32`.  Python's `data & ~mask` on such a value coincides with
  `data &&& ((2 ^ 32 - 1) ^^^ mask)` (`compl32` below), since `data` has no
  bits at positions 32 and above.
* Memory mapped through `mmap` is a function from (word-aligned byte)
  offsets to register words; `seek`/`read`/`write` pairs become reads and
  pointwise updates of that function.  Opening and closing of `/dev/mem`
  is not modelled.
* Python exceptions are `Except` values; where a claim depends on the
  mutations performed before a `raise`, the error value carries the state
  at the moment of the raise.
-/

set_option maxRecDepth 10000

set_option allowUnsafeReducibility true in
attribute [semireducible] Rat.mul Rat.add Rat.sub Rat.inv Rat.ofScientific

/-- Python runtime value restricted to the two types compared by the code:
`int` and `str`.  Needed because `fgpio.py` line 86 compares a `str` with an
`int`. -/
inductive PyVal where
  | pyInt : ℤ → PyVal
  | pyStr : String → PyVal
deriving DecidableEq

/-- Python `==`.  Values of distinct types (`str` vs `int`) compare unequal
without error: `'out' == 1` is `False`. -/
def pyEq : PyVal → PyVal → Bool
  | .pyInt a, .pyInt b => a == b
  | .pyStr a, .pyStr b => a == b
  | _, _ => false

/-- Python `str.lower()`, character-by-character (the strings involved are
ASCII). -/
def pyLower (s : String) : String := ⟨s.data.map Char.toLower⟩

/-- Python 2 `round` (half away from zero), on the exact rational standing
for the float argument, followed by `int(...)` which is the identity on the
integral result. -/
def pyRound (q : ℚ) : ℤ :=
  if q < 0 then -⌊-q + 1 / 2⌋ else ⌊q + 1 / 2⌋

/-! ### The 32-bit read-modify-write register model

Every register transaction in the source follows one shape: read a 32-bit
word, clear an `N`-bit field at a bit offset with `data & ~(mask << off)`,
merge `(value & mask) << off`, and write the word back.  `wordWrite`
captures that shape; for a word `w < 2 ^ 32`, `compl32` agrees with
Python's infinite-precision `~`. -/

/-- Complement within 32 bits: for `w < 2 ^ 32`, `w &&& compl32 m` equals
Python's `w & ~m`. -/
def compl32 (m : ℕ) : ℕ := (2 ^ 32 - 1) ^^^ m

/-- Generic masked field write: the update
`(w & ~(mask_N << off)) | ((v & mask_N) << off)` with `mask_N = 2 ^ N - 1`. -/
def wordWrite (w : ℕ) (N off v : ℕ) : ℕ :=
  (w &&& compl32 ((2 ^ N - 1) <<< off)) ||| ((v &&& (2 ^ N - 1)) <<< off)

/-- Generic masked field read: `(w >> off) & mask_N`. -/
def wordRead (w : ℕ) (N off : ℕ) : ℕ := (w >>> off) &&& (2 ^ N - 1)

/-! ### Error taxonomy

One constructor per distinct `raise` site/message of `fgpio.py`. -/

/-- Errors raised by `fgpio.GPIO`.  `ValueError` and generic `Exception`
messages are identified by constructor:
* `notAPin`        — "Not a valid pin number" (`_pin_available`/`_pin_check`)
* `badFuncType`    — "Bad function type ... for pin ..." (`_pin_available`)
* `pinInUse`       — "pin ... already in use as ..." (`_pin_available`/`_pin_check`)
* `notInit`        — "pin ... not initialized as ..." (`_pin_check`)
* `badGpioFunc`    — "Bad GPIO func" (`_gpio_direction`)
* `badUpdown`      — "Bad GPIO updown" (`_gpio_updown`)
* `badTriggerList` — "Trigger must be low, high, rising, falling, none, or both." (`eint_init`)
* `badTriggerXlat` — "Trigger must be low, high, rising, falling, or both." (`_eint_trigger`)
* `periodRange`    — "Period out of range ..." (`_pwm_period`)
* `noSolution`     — "Period configuration could not be determined." (`_pwm_period`)
* `dutyLong`       — "Duty cycle must be shorter than period." (`_pwm_duty_cycle`) -/
inductive Err where
  | notAPin
  | badFuncType
  | pinInUse
  | notInit
  | badGpioFunc
  | badUpdown
  | badTriggerList
  | badTriggerXlat
  | periodRange
  | noSolution
  | dutyLong
deriving DecidableEq

/-! ### Pin table and ownership registry

The source stores pins in `board.pins`, a dict mapping the connector pin
number to a dict with keys `'bank'`, `'gpio'`, optionally `'pwm'` and
`'eint'` (each holding `{'num': n}`), plus a mutable `'used'` slot that the
constructor initializes to `False` and that later holds one of the strings
`'gpio'`/`'pwm'`/`'eint'`. -/

/-- Capability strings `'gpio'`, `'pwm'`, `'eint'` used in the `used` slot
and as dict keys. -/
inductive PType where
  | gpio
  | pwm
  | eint
deriving DecidableEq

/-- Static part of one `board.pins` entry. -/
structure PinDesc where
  bank : String
  gpioNum : Option ℕ
  pwmNum : Option ℕ
  eintNum : Option ℕ
deriving DecidableEq

/-- One `board.pins` entry: static descriptor plus the mutable `used` slot
(`none` is Python `False`). -/
structure PinEntry where
  desc : PinDesc
  used : Option PType
deriving DecidableEq

/-- The pin table, keyed by connector pin number. -/
abbrev Pins := List (ℕ × PinEntry)

/-- Python `ptype in self.board.pins[pin]`: key presence of a capability in
the pin's dict. -/
def hasKey (d : PinDesc) : PType → Bool
  | .gpio => d.gpioNum.isSome
  | .pwm => d.pwmNum.isSome
  | .eint => d.eintNum.isSome

/-- `_pin_available(pin, ptype)` (fgpio.py lines 347-355): pin must exist,
list the capability, and be unused. -/
def pin_available (ps : Pins) (pin : ℕ) (t : PType) : Except Err Unit :=
  match List.lookup pin ps with
  | none => .error .notAPin
  | some e =>
    if hasKey e.desc t = false then .error .badFuncType
    else if e.used.isSome then .error .pinInUse
    else .ok ()

/-- `_pin_check(pin, ptype)` (fgpio.py lines 357-365): pin must exist, be
initialized, and be in use as the requested capability. -/
def pin_check (ps : Pins) (pin : ℕ) (t : PType) : Except Err Unit :=
  match List.lookup pin ps with
  | none => .error .notAPin
  | some e =>
    if e.used = none then .error .notInit
    else if e.used ≠ some t then .error .pinInUse
    else .ok ()

/-- The assignment `self.board.pins[pin]['used'] = u`: the entry whose key
is `pin` gets its `used` slot replaced, all other entries are untouched. -/
def setUsed : Pins → ℕ → Option PType → Pins
  | [], _, _ => []
  | (k, v) :: tl, pin, u =>
    (if k = pin then (k, ⟨v.desc, u⟩) else (k, v)) :: setUsed tl pin u

/-- The acquisition pattern of `gpio_init`/`pwm_init`/`eint_init`:
`_pin_available` followed (on success of the whole init) by
`pins[pin]['used'] = ptype`. -/
def acquire (ps : Pins) (pin : ℕ) (t : PType) : Except Err Pins :=
  match pin_available ps pin t with
  | .error e => .error e
  | .ok _ => .ok (setUsed ps pin (some t))

/-- The release pattern of the close paths (`_gpio_close`/`_pwm_close`):
`pins[pin]['used'] = False`. -/
def release (ps : Pins) (pin : ℕ) : Pins := setUsed ps pin none

/-! ### Board constants (`boards/nanopi.py`) -/

def MEM_OFFSET : ℕ := 0x56000000
def GPIO_CON_OFFSET : ℕ := 0x00
def GPIO_DATA_OFFSET : ℕ := 0x04
def GPIO_UPD_OFFSET : ℕ := 0x08
def UPDN_UP : ℕ := 1
def UPDN_DOWN : ℕ := 0
def UPDN_NONE : ℕ := 2
def FUNC_IN : ℕ := 0
def FUNC_OUT : ℕ := 1
def FUNC_EINT : ℕ := 2
def EINT_CONT_OFFSET : ℕ := 0x88
def EINT_PEND_OFFSET : ℕ := 0xA8
def EINT_LOW : ℕ := 0x00
def EINT_HIGH : ℕ := 0x01
def EINT_FALL : ℕ := 0x02
def EINT_RISE : ℕ := 0x04
def EINT_BOTH : ℕ := 0x07

/-- Platform page size assumed by the `mmap` wrapping (4096 on the target). -/
def PAGESIZE : ℕ := 4096

/-- `self._mem_base_addr_offset = MEM_OFFSET - (MEM_OFFSET & ~(PAGESIZE-1))`,
the offset of the register block inside its page (0 here, since
`0x56000000` is page aligned). -/
def memBaseAddrOffset : ℕ := MEM_OFFSET % PAGESIZE

/-- `board.banks`: bank name to base offset within the GPIO block. -/
def nanopiBanks : List (String × ℕ) :=
  [("GPB", 0x10), ("GPF", 0x50), ("GPG", 0x60), ("GPL", 0xf0)]

/-- `board.pins` of `boards/nanopi.py`, with every `used` slot `False` as
set by the `GPIO.__init__` loop. -/
def nanopiPins : Pins :=
  [(7, ⟨⟨"GPF", some 1, none, none⟩, none⟩),
   (11, ⟨⟨"GPF", some 2, none, none⟩, none⟩),
   (12, ⟨⟨"GPF", some 3, none, none⟩, none⟩),
   (13, ⟨⟨"GPF", some 4, none, some 4⟩, none⟩),
   (15, ⟨⟨"GPF", some 5, none, some 5⟩, none⟩),
   (16, ⟨⟨"GPB", some 2, none, none⟩, none⟩),
   (18, ⟨⟨"GPG", some 1, none, some 9⟩, none⟩),
   (22, ⟨⟨"GPB", some 0, some 0, none⟩, none⟩),
   (24, ⟨⟨"GPL", some 13, none, none⟩, none⟩),
   (26, ⟨⟨"GPB", some 1, some 1, none⟩, none⟩),
   (27, ⟨⟨"GPB", some 7, none, none⟩, none⟩),
   (28, ⟨⟨"GPB", some 8, none, none⟩, none⟩),
   (29, ⟨⟨"GPG", some 3, none, some 11⟩, none⟩),
   (31, ⟨⟨"GPG", some 4, none, some 12⟩, none⟩),
   (32, ⟨⟨"GPG", some 5, none, some 13⟩, none⟩),
   (33, ⟨⟨"GPG", some 6, none, some 14⟩, none⟩),
   (35, ⟨⟨"GPG", some 7, none, some 15⟩, none⟩),
   (36, ⟨⟨"GPG", some 8, none, some 16⟩, none⟩),
   (37, ⟨⟨"GPG", some 9, none, some 17⟩, none⟩),
   (38, ⟨⟨"GPG", some 10, none, some 18⟩, none⟩),
   (40, ⟨⟨"GPG", some 11, none, some 19⟩, none⟩)]

/-! ### GPIO and EINT controller state -/

/-- State of the GPIO register block plus the pin table: `mem` maps the
seek offset of a 32-bit word to its value. -/
structure St where
  mem : ℕ → ℕ
  pins : Pins

/-- Write one 32-bit word at a seek offset. -/
def writeWordSt (st : St) (addr w : ℕ) : St :=
  { st with mem := fun a => if a = addr then w else st.mem a }

/-- The pin's `'bank'` entry (callers guarantee the pin exists). -/
def pinBank (ps : Pins) (pin : ℕ) : String :=
  match List.lookup pin ps with
  | some e => e.desc.bank
  | none => ""

/-- The pin's `pins[pin]['gpio']['num']` (callers guarantee presence). -/
def pinGpioNum (ps : Pins) (pin : ℕ) : ℕ :=
  match List.lookup pin ps with
  | some e => e.desc.gpioNum.getD 0
  | none => 0

/-- The pin's `pins[pin]['eint']['num']` (callers guarantee presence). -/
def pinEintNum (ps : Pins) (pin : ℕ) : ℕ :=
  match List.lookup pin ps with
  | some e => e.desc.eintNum.getD 0
  | none => 0

/-- `_gpio_mem_seek_addr`: `_mem_base_addr_offset + banks[bank] + offset_bank`. -/
def gpioSeekAddr (ps : Pins) (pin : ℕ) (offsetBank : ℕ) : ℕ :=
  memBaseAddrOffset + (List.lookup (pinBank ps pin) nanopiBanks).getD 0 + offsetBank

/-- `_gpio_mem_write` (fgpio.py lines 424-428): 1-bit read-modify-write,
`data = (data & ~(1 << num)) | ((value & 1) << num)`. -/
def gpio_mem_write (data num value : ℕ) : ℕ :=
  (data &&& compl32 (1 <<< num)) ||| ((value &&& 1) <<< num)

/-- `_gpio_mem_write2` (fgpio.py lines 430-434): 2-bit read-modify-write,
`data = (data & ~(3 << (num * 2))) | ((value & 3) << (num * 2))`. -/
def gpio_mem_write2 (data num value : ℕ) : ℕ :=
  (data &&& compl32 (3 <<< (num * 2))) ||| ((value &&& 3) <<< (num * 2))

/-- `_gpio_function(pin, func)`: 2-bit field write in the bank's control
register. -/
def gpio_function (st : St) (pin : ℕ) (func : ℕ) : St :=
  let addr := gpioSeekAddr st.pins pin GPIO_CON_OFFSET
  writeWordSt st addr (gpio_mem_write2 (st.mem addr) (pinGpioNum st.pins pin) func)

/-- `_gpio_updn(pin, updn)`: 2-bit field write in the bank's pull register. -/
def gpio_updn (st : St) (pin : ℕ) (updn : ℕ) : St :=
  let addr := gpioSeekAddr st.pins pin GPIO_UPD_OFFSET
  writeWordSt st addr (gpio_mem_write2 (st.mem addr) (pinGpioNum st.pins pin) updn)

/-- `_gpio_updown(pin, updown)`: translate the pull name and write it. -/
def gpio_updown (st : St) (pin : ℕ) (updown : String) : Except Err St :=
  let u := pyLower updown
  if u = "up" then .ok (gpio_updn st pin UPDN_UP)
  else if u = "down" then .ok (gpio_updn st pin UPDN_DOWN)
  else if u = "none" then .ok (gpio_updn st pin UPDN_NONE)
  else .error .badUpdown

/-- `_gpio_direction(pin, direction)`: translate the direction name and
write the function-select field. -/
def gpio_direction (st : St) (pin : ℕ) (direction : String) : Except Err St :=
  let d := pyLower direction
  if d = "out" then .ok (gpio_function st pin FUNC_OUT)
  else if d = "in" then .ok (gpio_function st pin FUNC_IN)
  else .error .badGpioFunc

/-- `gpio_init(pin, direction, updown)` (fgpio.py lines 69-91).  The
"Safety check" compares `direction.lower()` (a `str`) with
`board.FUNC_OUT` (an `int`) using Python `==`, embedded via `pyEq`.  The
`_mem_open` lazy mapping step is not modelled.  On an exception the error
carries the state at the moment of the raise. -/
def gpio_init (st : St) (pin : ℕ) (direction updown : String) : Except (Err × St) St :=
  match pin_available st.pins pin .gpio with
  | .error e => .error (e, st)
  | .ok _ =>
    match gpio_direction st pin direction with
    | .error e => .error (e, st)
    | .ok st1 =>
      match
        (if pyEq (.pyStr (pyLower direction)) (.pyInt (FUNC_OUT : ℤ)) then
          gpio_updown st1 pin "none"
        else
          gpio_updown st1 pin updown) with
      | .error e => .error (e, st1)
      | .ok st2 => .ok { st2 with pins := setUsed st2.pins pin (some .gpio) }

/-! ### EINT controller -/

/-- Core of `_eint_control` (fgpio.py lines 456-462), after the pin's
`eint` line number has been looked up: seek to
`EINT_CONT_OFFSET + ((num * 4) / 32) * 4` (Python 2 integer division) and
read-modify-write the 3-bit trigger field at bit `(num * 4) % 32`. -/
def eint_control_line (mem : ℕ → ℕ) (num value : ℕ) : ℕ → ℕ :=
  let addr := memBaseAddrOffset + EINT_CONT_OFFSET + (num * 4 / 32) * 4
  let poff := num * 4 % 32
  let data := (mem addr &&& compl32 (7 <<< poff)) ||| ((value &&& 7) <<< poff)
  fun a => if a = addr then data else mem a

/-- `_eint_control(pin, value)`. -/
def eint_control (st : St) (pin : ℕ) (value : ℕ) : St :=
  { st with mem := eint_control_line st.mem (pinEintNum st.pins pin) value }

/-- `_eint_trigger(pin, trigger)` (fgpio.py lines 440-454): translate the
trigger name; note `'none'` is not accepted here. -/
def eint_trigger (st : St) (pin : ℕ) (trigger : String) : Except Err St :=
  if trigger = "low" then .ok (eint_control st pin EINT_LOW)
  else if trigger = "high" then .ok (eint_control st pin EINT_HIGH)
  else if trigger = "rising" then .ok (eint_control st pin EINT_RISE)
  else if trigger = "falling" then .ok (eint_control st pin EINT_FALL)
  else if trigger = "both" then .ok (eint_control st pin EINT_BOTH)
  else .error .badTriggerXlat

/-- The value `_eint_clear_event` (fgpio.py lines 469-474) writes back to
the pending register: `(data & ~(1 << num)) | (1 << num)` where `data` is
the value just read. -/
def eint_clear_written (data num : ℕ) : ℕ :=
  (data &&& compl32 (1 <<< num)) ||| (1 <<< num)

/-- `_eint_clear_event(pin)` as a plain memory transaction on `St`. -/
def eint_clear_event (st : St) (pin : ℕ) : St :=
  let addr := memBaseAddrOffset + EINT_PEND_OFFSET
  writeWordSt st addr (eint_clear_written (st.mem addr) (pinEintNum st.pins pin))

/-- `_eint_get_event(pin)` (fgpio.py lines 464-467) on the pending-register
word: `0x01 & (data >> num)`. -/
def eint_get_event (pend num : ℕ) : ℕ := 0x01 &&& (pend >>> num)

/-- Modelled from the spec: the pending register of this hardware family
has write-one-to-clear semantics — a register write clears exactly the
pending bits that are written as 1 and leaves bits written as 0 unchanged.
(The hardware behaviour is not part of the Python source; the spec states
it in §4.4.) -/
def w1cWrite (pend written : ℕ) : ℕ := pend &&& compl32 written

/-- Effect of `_eint_clear_event` on the physical pending register under
write-one-to-clear semantics: the read-modify-write value is written to a
register that clears every bit written as 1. -/
def eint_clear_event_pend (pend num : ℕ) : ℕ :=
  w1cWrite pend (eint_clear_written pend num)

/-- `eint_init(pin, trigger)` (fgpio.py lines 157-177).  The membership
check of the trigger string (which accepts `'none'`) happens after the
function-select write; `_eint_trigger` (which rejects `'none'`) runs
before `_eint_clear_event`; `used` is set last. -/
def eint_init (st : St) (pin : ℕ) (trigger : String) : Except (Err × St) St :=
  match pin_available st.pins pin .eint with
  | .error e => .error (e, st)
  | .ok _ =>
    let st1 := gpio_function st pin FUNC_EINT
    if trigger ∈ (["low", "high", "rising", "falling", "none", "both"] : List String) then
      match eint_trigger st1 pin trigger with
      | .error e => .error (e, st1)
      | .ok st2 =>
        let st3 := eint_clear_event st2 pin
        .ok { st3 with pins := setUsed st3.pins pin (some .eint) }
    else .error (.badTriggerList, st1)

/-! ### PWM period solver (`_pwm_period`, fgpio.py lines 528-573)

The solver is pure apart from the final register writes; it is embedded as
a function of the board clock, the divider table and the requested period.
All float arithmetic is exact rational arithmetic here. -/

/-- The running `best` dict of `_pwm_period`:
`{'diff': 65535, 'counter': None, 'prescaler': None, 'divider': None}`.
The three `Option` fields are always assigned together. -/
structure PwmBest where
  diff : ℚ
  counter : Option ℤ
  prescaler : Option ℕ
  divider : Option ℕ
deriving DecidableEq

/-- One iteration of the `while pre_cnt >= 0` loop body at divider index
`divIdx` and prescaler value `preCnt`. -/
def pwmStep (clk : ℚ) (divs : List ℚ) (periodNs : ℚ) (divIdx preCnt : ℕ)
    (b : PwmBest) : PwmBest :=
  let clkSMax := 1 / (clk / ((preCnt : ℚ) + 1) / divs.getD divIdx 0)
  let clkNsMax := clkSMax * 65535 * 1000000000
  let clkSMin := 1 / (clk / ((preCnt : ℚ) + 1) / divs.getD divIdx 0)
  let clkNsMin := clkSMin * 1000000000
  if periodNs ≤ clkNsMax ∧ clkNsMin ≤ periodNs then
    let counterFl := periodNs / clkNsMax * 65535
    let counter := pyRound counterFl
    let diff := |(counter : ℚ) - counterFl|
    if diff < b.diff then ⟨diff, some counter, some preCnt, some divIdx⟩ else b
  else b

/-- The inner prescaler countdown: processes `preCnt = n, n-1, ..., 0` at a
fixed divider index (the source decrements `pre_cnt` from 255). -/
def pwmLoopPre (clk : ℚ) (divs : List ℚ) (periodNs : ℚ) (divIdx : ℕ) :
    ℕ → PwmBest → PwmBest
  | 0, b => pwmStep clk divs periodNs divIdx 0 b
  | n + 1, b => pwmLoopPre clk divs periodNs divIdx n (pwmStep clk divs periodNs divIdx (n + 1) b)

/-- The outer divider countdown: processes divider indices `m, m-1, ..., 0`,
resetting `pre_cnt` to 255 at each step (the `if pre_cnt < 0 and div_idx > 0`
reset in the source). -/
def pwmLoopDiv (clk : ℚ) (divs : List ℚ) (periodNs : ℚ) : ℕ → PwmBest → PwmBest
  | 0, b => pwmLoopPre clk divs periodNs 0 255 b
  | m + 1, b => pwmLoopDiv clk divs periodNs m (pwmLoopPre clk divs periodNs (m + 1) 255 b)

/-- `_pwm_period(pin, period_ns)` without the final register writes: the
range check, the search loop, and the returned residual error
`clk_s_err * counter * 1e9 - period_ns`.  On success the payload is
`(counter, prescaler, divider index, residual error in ns)`.  The source
reads only `best['counter']` to detect failure; the other two fields are
always set together with it, so `getD 0` is never exercised on `none`. -/
def pwmPeriodCalc (clk : ℚ) (divs : List ℚ) (periodNs : ℚ) :
    Except Err (ℤ × ℕ × ℕ × ℚ) :=
  let clkSMaxT := 1 / (clk / 256 / divs.getD (divs.length - 1) 0)
  let clkNsMaxT := clkSMaxT * 65535 * 1000000000
  let clkSMinT := 1 / (clk / divs.getD 0 0)
  let clkNsMinT := clkSMinT * 1000000000
  if clkNsMaxT < periodNs ∨ clkNsMinT > periodNs then .error .periodRange
  else
    let best := pwmLoopDiv clk divs periodNs (divs.length - 1) ⟨65535, none, none, none⟩
    match best.counter with
    | none => .error .noSolution
    | some c =>
      let p := best.prescaler.getD 0
      let di := best.divider.getD 0
      let clkSErr := 1 / (clk / ((p : ℚ) + 1) / divs.getD di 0)
      .ok (c, p, di, clkSErr * (c : ℚ) * 1000000000 - periodNs)

/-! ### PWM duty cycle (`_pwm_duty_cycle`, fgpio.py lines 580-592)

`counter` is the value read back from the 16-bit counter field and
`freq_s` the tick length in seconds from `_pwm_freq_seconds`; both are
parameters of the embedding.  The compare-register write masks the
computed value to 16 bits inside a 32-bit read-modify-write
(`_pwm_compare`); on the error path the raise happens before that write,
so the error carries the untouched register. -/

/-- `_pwm_duty_cycle` acting on the compare register word `compareReg`.
The payload is `(new compare register word, residual error in ns)`.
Python's `compare & 0xFFFF` on a possibly negative `int` is the
two's-complement low 16 bits, i.e. `(compare % 65536).toNat`. -/
def pwm_duty_cycle (compareReg : ℕ) (counter : ℕ) (freqS : ℚ) (dutyCycleNs : ℚ) :
    Except (Err × ℕ) (ℕ × ℚ) :=
  let freqNs := freqS * 1000000000
  let periodNs := (counter : ℚ) * freqS * 1000000000
  let compare := pyRound (dutyCycleNs / freqNs)
  if periodNs < dutyCycleNs then .error (.dutyLong, compareReg)
  else
    let newReg := (compareReg &&& compl32 0xFFFF) ||| (compare % 65536).toNat
    .ok (newReg, (compare : ℚ) * freqS * 1000000000 - dutyCycleNs)

/-! ### PWM board constants

`fgpio.py` reads `board.PWM_CLK` and `board.PWM_DIVIDERS` from the board
configuration; `boards/nanopi.py` as shipped in this tree does not define
them, so the values are taken from the spec. -/

/-- Modelled from the spec: the PWM peripheral clock `board.PWM_CLK`
(`clock_hz = 50_000_000`), absent from the `boards/nanopi.py` in `src/`. -/
def nanopiPwmClk : ℚ := 50000000

/-- Modelled from the spec: the divider table `board.PWM_DIVIDERS`
(`dividers = [1, 2, 4, 8, 16]`, ascending), absent from the
`boards/nanopi.py` in `src/`. -/
def nanopiPwmDividers : List ℚ := [1, 2, 4, 8, 16]

/-! ### Derived notions for the solver analysis

`pwmCand` is the per-iteration candidate the loop body considers (same
range test, counter and error computation as `pwmStep`); `pwmEnum` is the
enumeration order of the nested loops: prescaler descending 255..0 inside
divider index descending (last table index)..0; `pickBestFrom` is the
strict-improvement selection the `best` dict performs. -/

/-- One feasible candidate of the search: divider index, prescaler,
`counter = round(period_ns / tick_ns)` and `error = |counter - period_ns/tick_ns|`. -/
structure PwmCand where
  divider : ℕ
  prescaler : ℕ
  counter : ℤ
  diff : ℚ
deriving DecidableEq

/-- The candidate (if feasible) considered by the loop body at divider
index `divIdx`, prescaler `preCnt` — the same computation as `pwmStep`. -/
def pwmCand (clk : ℚ) (divs : List ℚ) (periodNs : ℚ) (divIdx preCnt : ℕ) :
    Option PwmCand :=
  let clkSMax := 1 / (clk / ((preCnt : ℚ) + 1) / divs.getD divIdx 0)
  let clkNsMax := clkSMax * 65535 * 1000000000
  let clkSMin := 1 / (clk / ((preCnt : ℚ) + 1) / divs.getD divIdx 0)
  let clkNsMin := clkSMin * 1000000000
  if periodNs ≤ clkNsMax ∧ clkNsMin ≤ periodNs then
    let counterFl := periodNs / clkNsMax * 65535
    let counter := pyRound counterFl
    some ⟨divIdx, preCnt, counter, |(counter : ℚ) - counterFl|⟩
  else none

/-- The `best` dict after recording a candidate. -/
def candBest (c : PwmCand) : PwmBest :=
  ⟨c.diff, some c.counter, some c.prescaler, some c.divider⟩

/-- The `if diff < best['diff']` update. -/
def selStep (b : PwmBest) (c : PwmCand) : PwmBest :=
  if c.diff < b.diff then candBest c else b

/-- The enumeration order of the nested loops: for each divider index from
`n - 1` down to `0`, prescaler from 255 down to 0. -/
def pwmEnum (n : ℕ) : List (ℕ × ℕ) :=
  ((List.range n).reverse).flatMap fun di => ((List.range 256).reverse).map fun pr => (di, pr)

/-- All feasible candidates, in enumeration order. -/
def pwmCands (clk : ℚ) (divs : List ℚ) (periodNs : ℚ) : List PwmCand :=
  (pwmEnum divs.length).filterMap fun pd => pwmCand clk divs periodNs pd.1 pd.2

/-- First-found strict minimum of `diff`, starting from `m`. -/
def pickBestFrom (m : PwmCand) : List PwmCand → PwmCand
  | [] => m
  | c :: cs => pickBestFrom (if c.diff < m.diff then c else m) cs

/-- Refinement definition following the spec's words (§4.5):
`tick_ns = 1e9 / (clock_hz / (p+1) / d)`. -/
def specTickNs (clk : ℚ) (p : ℕ) (d : ℚ) : ℚ :=
  1000000000 / (clk / ((p : ℚ) + 1) / d)

/-- Refinement definition following the spec's words (C4): `min_period_ns`
computed from the smallest (first, the table being ascending) divider with
prescaler divide factor 1 (register value 0) and counter 1. -/
def specMinPeriodNs (clk : ℚ) (divs : List ℚ) : ℚ :=
  specTickNs clk 0 (divs.getD 0 0) * 1

/-- Refinement definition following the spec's words (C4): `max_period_ns`
computed from the largest (last) divider with prescaler divide factor 256
(register value 255) and counter 65535. -/
def specMaxPeriodNs (clk : ℚ) (divs : List ℚ) : ℚ :=
  specTickNs clk 255 (divs.getD (divs.length - 1) 0) * 65535

deriving instance DecidableEq for Except

/-! ## Theorems -/

/-! ### Properties of `pyRound` -/

theorem pyRound_sub_abs_le (q : ℚ) : |(pyRound q : ℚ) - q| ≤ 1 / 2 := by
  unfold pyRound
  rw [abs_le]
  split
  · have h1 : ((⌊-q + 1 / 2⌋ : ℤ) : ℚ) ≤ -q + 1 / 2 := Int.floor_le _
    have h2 : (-q + 1 / 2 : ℚ) < (⌊-q + 1 / 2⌋ : ℤ) + 1 := Int.lt_floor_add_one _
    refine ⟨?_, ?_⟩ <;> push_cast <;> linarith
  · have h1 : ((⌊q + 1 / 2⌋ : ℤ) : ℚ) ≤ q + 1 / 2 := Int.floor_le _
    have h2 : (q + 1 / 2 : ℚ) < (⌊q + 1 / 2⌋ : ℤ) + 1 := Int.lt_floor_add_one _
    exact ⟨by linarith, by linarith⟩

theorem pyRound_nonneg (q : ℚ) (h : 0 ≤ q) : 0 ≤ pyRound q := by
  unfold pyRound
  rw [if_neg (by linarith)]
  exact Int.floor_nonneg.2 (by linarith)

theorem pyRound_le_of_le_int (q : ℚ) (n : ℤ) (h0 : 0 ≤ q) (h : q ≤ (n : ℚ)) :
    pyRound q ≤ n := by
  unfold pyRound
  rw [if_neg (by linarith)]
  calc ⌊q + 1 / 2⌋ ≤ ⌊(n : ℚ) + 1 / 2⌋ := Int.floor_le_floor (by linarith)
    _ = n + ⌊(1 / 2 : ℚ)⌋ := Int.floor_int_add n (1 / 2)
    _ = n := by norm_num

theorem pyRound_intCast (n : ℤ) (h : 0 ≤ n) : pyRound (n : ℚ) = n := by
  unfold pyRound
  rw [if_neg (by exact not_lt.2 (by exact_mod_cast h))]
  rw [Int.floor_int_add n (1 / 2)]
  norm_num

/-! ### Properties of the 32-bit field read-modify-write -/

theorem testBit_wordWrite (w N off v b : ℕ) (hw : w < 2 ^ 32) :
    (wordWrite w N off v).testBit b =
      if off ≤ b ∧ b < off + N then v.testBit (b - off) else w.testBit b := by
  have h32 : ∀ i, 32 ≤ i → w.testBit i = false := by
    intro i hi
    exact Nat.testBit_lt_two_pow (lt_of_lt_of_le hw (Nat.pow_le_pow_right (by norm_num) hi))
  simp only [wordWrite, compl32, Nat.testBit_lor, Nat.testBit_land, Nat.testBit_xor,
    Nat.testBit_shiftLeft, Nat.testBit_two_pow_sub_one]
  by_cases hob : off ≤ b
  · by_cases hbn : b < off + N
    · have h1 : b - off < N := by omega
      by_cases hb32 : b < 32
      · simp [hob, hbn, h1, hb32]
      · simp [hob, hbn, h1, hb32, h32 b (by omega)]
    · have h1 : ¬(b - off < N) := by omega
      by_cases hb32 : b < 32
      · simp [hob, hbn, h1, hb32]
      · simp [hob, hbn, h1, hb32, h32 b (by omega)]
  · by_cases hb32 : b < 32
    · simp [hob, (by omega : ¬(off ≤ b ∧ b < off + N)), hb32]
    · simp [hob, (by omega : ¬(off ≤ b ∧ b < off + N)), hb32, h32 b (by omega)]

theorem wordRead_wordWrite_self (w N off v : ℕ) (hw : w < 2 ^ 32) (hv : v < 2 ^ N) :
    wordRead (wordWrite w N off v) N off = v := by
  apply Nat.eq_of_testBit_eq
  intro i
  simp only [wordRead, Nat.testBit_land, Nat.testBit_shiftRight, Nat.testBit_two_pow_sub_one,
    testBit_wordWrite _ _ _ _ _ hw]
  by_cases hiN : i < N
  · simp [hiN, (by omega : off ≤ off + i), (by omega : off + i < off + N)]
  · have : v.testBit i = false :=
      Nat.testBit_lt_two_pow (lt_of_lt_of_le hv (Nat.pow_le_pow_right (by norm_num) (by omega)))
    simp [hiN, this]

theorem wordRead_wordWrite_other (w N M off off2 v : ℕ) (hw : w < 2 ^ 32)
    (hdisj : off2 + M ≤ off ∨ off + N ≤ off2) :
    wordRead (wordWrite w N off v) M off2 = wordRead w M off2 := by
  apply Nat.eq_of_testBit_eq
  intro i
  simp only [wordRead, Nat.testBit_land, Nat.testBit_shiftRight, Nat.testBit_two_pow_sub_one,
    testBit_wordWrite _ _ _ _ _ hw]
  by_cases hiM : i < M
  · rw [if_neg (by omega)]
  · simp [hiM]

theorem testBit_wordWrite_outside (w N off v b : ℕ) (hw : w < 2 ^ 32)
    (hb : b < off ∨ off + N ≤ b) :
    (wordWrite w N off v).testBit b = w.testBit b := by
  rw [testBit_wordWrite _ _ _ _ _ hw, if_neg (by omega)]

/-! ### C8 — bit-packing round trip -/

/-- C8: for field widths N in {1, 2, 3}, for every 32-bit starting register
value, every field index i and every in-range value v, the source's
read-modify-write `register' = (register & ~(mask_N << (i*N))) | ((v & mask_N) << (i*N))`
(which is what `_gpio_mem_write` performs for N = 1 and `_gpio_mem_write2`
for N = 2, as the last two conjuncts state) satisfies the round trip:
reading field i of `register'` returns v, and reading any field j ≠ i of
`register'` returns its value in the original register — no cross-talk
between pins sharing a word. -/
theorem bitfield_roundtrip (N r i j v : ℕ) (hN : N = 1 ∨ N = 2 ∨ N = 3)
    (hr : r < 2 ^ 32) (hv : v < 2 ^ N) (hij : j ≠ i) :
    wordRead (wordWrite r N (i * N) v) N (i * N) = v ∧
    wordRead (wordWrite r N (i * N) v) N (j * N) = wordRead r N (j * N) ∧
    gpio_mem_write r i v = wordWrite r 1 (i * 1) v ∧
    gpio_mem_write2 r i v = wordWrite r 2 (i * 2) v := by
  refine ⟨wordRead_wordWrite_self _ _ _ _ hr hv, ?_, ?_, ?_⟩
  · refine wordRead_wordWrite_other _ _ _ _ _ _ hr ?_
    rcases hN with h | h | h <;> subst h <;> omega
  · show _ = (r &&& compl32 ((2 ^ 1 - 1) <<< (i * 1))) ||| ((v &&& (2 ^ 1 - 1)) <<< (i * 1))
    norm_num [gpio_mem_write]
  · show _ = (r &&& compl32 ((2 ^ 2 - 1) <<< (i * 2))) ||| ((v &&& (2 ^ 2 - 1)) <<< (i * 2))
    norm_num [gpio_mem_write2]

theorem bitfield_roundtrip_witness :
    wordRead (wordWrite 0xABCD1234 2 (3 * 2) 1) 2 (3 * 2) = 1 ∧
    wordRead (wordWrite 0xABCD1234 2 (3 * 2) 1) 2 (4 * 2) = wordRead 0xABCD1234 2 (4 * 2) ∧
    gpio_mem_write 0xABCD1234 3 1 = wordWrite 0xABCD1234 1 (3 * 1) 1 ∧
    gpio_mem_write2 0xABCD1234 3 1 = wordWrite 0xABCD1234 2 (3 * 2) 1 :=
  bitfield_roundtrip 2 0xABCD1234 3 4 1 (by norm_num) (by norm_num) (by norm_num) (by norm_num)

/-! ### C7 — EINT trigger field packing -/

/-- C7 counterexample: configuring the trigger for EINT line 4 (pin 13)
with code `EINT_HIGH = 1` on an all-zero register block does not place the
code in the bit field at `(4*3) mod 32 = 12` of the word at
`base + 4*floor(4*3/32)` — that field reads 0, not 1, because the source
packs trigger fields 4 bits apart (`(pin_num * 4)`), not 3. -/
theorem eint_trigger_pack_counterexample :
    wordRead ((eint_control_line (fun _ => 0) 4 EINT_HIGH)
        (memBaseAddrOffset + EINT_CONT_OFFSET + (4 * 3 / 32) * 4)) 3 (4 * 3 % 32) = 0 ∧
    EINT_HIGH ≠ 0 := by decide

/-- C7 (amended): for every EINT line index L, `_eint_control` writes the
3-bit trigger code into the bit field at offset `(L*4) mod 32` within the
word at `EINT_CONT_OFFSET + 4*floor(L*4/32)` (fields are packed on 4-bit
boundaries), leaving all other bits of that word and all other words
unchanged. -/
theorem eint_trigger_pack (mem : ℕ → ℕ) (L v : ℕ) (hv : v < 8)
    (hw : mem (memBaseAddrOffset + EINT_CONT_OFFSET + (L * 4 / 32) * 4) < 2 ^ 32) :
    wordRead ((eint_control_line mem L v)
        (memBaseAddrOffset + EINT_CONT_OFFSET + (L * 4 / 32) * 4)) 3 (L * 4 % 32) = v ∧
    (∀ b, b < L * 4 % 32 ∨ L * 4 % 32 + 3 ≤ b →
      ((eint_control_line mem L v)
          (memBaseAddrOffset + EINT_CONT_OFFSET + (L * 4 / 32) * 4)).testBit b =
        (mem (memBaseAddrOffset + EINT_CONT_OFFSET + (L * 4 / 32) * 4)).testBit b) ∧
    (∀ a, a ≠ memBaseAddrOffset + EINT_CONT_OFFSET + (L * 4 / 32) * 4 →
      (eint_control_line mem L v) a = mem a) := by
  have hword : (eint_control_line mem L v)
      (memBaseAddrOffset + EINT_CONT_OFFSET + (L * 4 / 32) * 4) =
      wordWrite (mem (memBaseAddrOffset + EINT_CONT_OFFSET + (L * 4 / 32) * 4)) 3
        (L * 4 % 32) v := by
    show (if _ = _ then _ else _) = _
    rw [if_pos rfl]
    rfl
  refine ⟨?_, ?_, ?_⟩
  · rw [hword]
    exact wordRead_wordWrite_self _ _ _ _ hw (by omega)
  · intro b hb
    rw [hword]
    exact testBit_wordWrite_outside _ _ _ _ _ hw (by omega)
  · intro a ha
    show (if _ = _ then _ else _) = _
    rw [if_neg ha]

theorem eint_trigger_pack_witness :
    wordRead ((eint_control_line (fun _ => 0x55555555) 9 EINT_BOTH)
        (memBaseAddrOffset + EINT_CONT_OFFSET + (9 * 4 / 32) * 4)) 3 (9 * 4 % 32) = EINT_BOTH ∧
    (∀ b, b < 9 * 4 % 32 ∨ 9 * 4 % 32 + 3 ≤ b →
      ((eint_control_line (fun _ => 0x55555555) 9 EINT_BOTH)
          (memBaseAddrOffset + EINT_CONT_OFFSET + (9 * 4 / 32) * 4)).testBit b =
        ((fun _ => 0x55555555 : ℕ → ℕ)
          (memBaseAddrOffset + EINT_CONT_OFFSET + (9 * 4 / 32) * 4)).testBit b) ∧
    (∀ a, a ≠ memBaseAddrOffset + EINT_CONT_OFFSET + (9 * 4 / 32) * 4 →
      (eint_control_line (fun _ => 0x55555555) 9 EINT_BOTH) a =
        (fun _ => 0x55555555 : ℕ → ℕ) a) :=
  eint_trigger_pack (fun _ => 0x55555555) 9 EINT_BOTH (by norm_num [EINT_BOTH]) (by norm_num)

/-! ### C9 — clear_event under write-one-to-clear -/

/-- C9 counterexample: with EINT line 5 pending (pending register value
32) and line 4 being cleared, `_eint_clear_event`'s read-modify-write
writes line 5's bit back as 1; under write-one-to-clear semantics that
clears line 5 as well, so its pending bit is not preserved: it reads 1
before and 0 after. -/
theorem eint_clear_event_counterexample :
    eint_get_event 32 5 = 1 ∧
    eint_get_event (eint_clear_event_pend 32 4) 5 = 0 := by decide

/-- C9 (amended): `_eint_clear_event` writes back the value it read with
bit L additionally set; under the hardware's write-one-to-clear semantics
this clears line L — so `poll_event` returns 0 for every line afterwards
until an external trigger sets it — but it also clears every other line
that was pending at the time of the read, leaving the whole pending
register zero, instead of preserving other lines' bits. -/
theorem eint_clear_event_w1c (pend L : ℕ) (hp : pend < 2 ^ 32) :
    eint_clear_event_pend pend L = 0 ∧
    (∀ j, eint_get_event (eint_clear_event_pend pend L) j = 0) := by
  have hz : eint_clear_event_pend pend L = 0 := by
    apply Nat.eq_of_testBit_eq
    intro b
    simp only [eint_clear_event_pend, w1cWrite, eint_clear_written, compl32,
      Nat.testBit_land, Nat.testBit_lor, Nat.testBit_xor, Nat.testBit_shiftLeft,
      Nat.testBit_two_pow_sub_one, Nat.zero_testBit]
    cases hb : pend.testBit b with
    | false => simp
    | true =>
      have hb32 : b < 32 := by
        by_contra hge
        rw [Nat.testBit_lt_two_pow
          (lt_of_lt_of_le hp (Nat.pow_le_pow_right (by norm_num) (by omega)))] at hb
        exact Bool.false_ne_true hb
      have h1 : Nat.testBit 1 (b - L) = decide (b - L = 0) := by
        cases hbl : b - L with
        | zero => decide
        | succ k =>
          simp [Nat.testBit_succ]
      by_cases hbL : b = L
      · subst hbL
        simp [hb32, h1, hb]
      · by_cases hge : L ≤ b
        · have : ¬(b - L = 0) := by omega
          simp [hb32, h1, hb, hge, this, hbL]
        · simp [hb32, h1, hb, (by omega : ¬(b ≥ L))]
  refine ⟨hz, ?_⟩
  intro j
  rw [hz]
  simp [eint_get_event, Nat.zero_shiftRight]

theorem eint_clear_event_w1c_witness :
    eint_clear_event_pend 0x12345 4 = 0 ∧
    (∀ j, eint_get_event (eint_clear_event_pend 0x12345 4) j = 0) :=
  eint_clear_event_w1c 0x12345 4 (by norm_num)

/-! ### C2 — pin ownership exclusion -/

theorem lookup_setUsed_self (ps : Pins) (pin : ℕ) (u : Option PType) (e : PinEntry)
    (h : List.lookup pin ps = some e) :
    List.lookup pin (setUsed ps pin u) = some ⟨e.desc, u⟩ := by
  induction ps with
  | nil => simp at h
  | cons hd tl ih =>
    obtain ⟨k, v⟩ := hd
    rw [setUsed]
    by_cases hp : k = pin
    · subst hp
      simp only [List.lookup, beq_self_eq_true] at h
      rw [Option.some.injEq] at h
      subst h
      rw [if_pos rfl]
      simp [List.lookup]
    · have hbeq : (pin == k) = false := beq_eq_false_iff_ne.2 fun hh => hp hh.symm
      simp only [List.lookup, hbeq] at h
      rw [if_neg hp]
      simp only [List.lookup, hbeq]
      exact ih h

theorem lookup_setUsed_ne (ps : Pins) (pin q : ℕ) (u : Option PType) (hq : q ≠ pin) :
    List.lookup q (setUsed ps pin u) = List.lookup q ps := by
  induction ps with
  | nil => rfl
  | cons hd tl ih =>
    obtain ⟨k, v⟩ := hd
    rw [setUsed]
    by_cases hp : k = pin
    · subst hp
      have hbeq : (q == k) = false := beq_eq_false_iff_ne.2 hq
      rw [if_pos rfl]
      simp only [List.lookup, hbeq]
      exact ih
    · rw [if_neg hp]
      by_cases hqk : q = k
      · subst hqk
        simp [List.lookup]
      · have hbeq : (q == k) = false := beq_eq_false_iff_ne.2 hqk
        simp only [List.lookup, hbeq]
        exact ih

/-- C2 counterexample: pin 24 of the nanopi table supports only the gpio
capability.  After `acquire(24, gpio)` succeeds, a further
`acquire(24, pwm)` fails — but with the capability-unsupported error
(`_pin_available` checks `ptype not in pins[pin]` before the busy check),
not with the pin-busy error the claim asserts for "any capability". -/
theorem acquire_busy_counterexample :
    acquire nanopiPins 24 PType.gpio = .ok (setUsed nanopiPins 24 (some PType.gpio)) ∧
    acquire (setUsed nanopiPins 24 (some PType.gpio)) 24 PType.pwm = .error Err.badFuncType ∧
    Err.badFuncType ≠ Err.pinInUse := by decide

/-- C2 (amended): after `acquire(p, C)` succeeds (the pin exists, lists C,
and its usage flag is Free), the usage flag is set to C, `require(p, C)`
(`_pin_check`) succeeds, and any further `acquire(p, C')` fails — with the
pin-busy error when the pin lists capability C', and with the
capability-unsupported error otherwise, since that check precedes the busy
check — until the pin is released back to Free, after which
`_pin_available` no longer reports pin-busy for any capability. -/
theorem acquire_exclusion (ps : Pins) (pin : ℕ) (t : PType) (ps' : Pins)
    (h : acquire ps pin t = .ok ps') :
    ∃ e : PinEntry, List.lookup pin ps = some e ∧
      List.lookup pin ps' = some ⟨e.desc, some t⟩ ∧
      pin_check ps' pin t = .ok () ∧
      (∀ t', hasKey e.desc t' = true → acquire ps' pin t' = .error .pinInUse) ∧
      (∀ t', hasKey e.desc t' = false → acquire ps' pin t' = .error .badFuncType) ∧
      (∀ t', pin_available (release ps' pin) pin t' ≠ .error .pinInUse) := by
  unfold acquire at h
  cases hav : pin_available ps pin t with
  | error e0 => rw [hav] at h; cases h
  | ok u0 =>
    rw [hav] at h
    rw [Except.ok.injEq] at h
    unfold pin_available at hav
    cases hl : List.lookup pin ps with
    | none => rw [hl] at hav; cases hav
    | some e =>
      rw [hl] at hav
      dsimp only at hav
      by_cases hkey : hasKey e.desc t = false
      · rw [if_pos hkey] at hav; cases hav
      · rw [if_neg hkey] at hav
        by_cases hused : e.used.isSome = true
        · rw [if_pos hused] at hav; cases hav
        · have hlook' : List.lookup pin ps' = some ⟨e.desc, some t⟩ :=
            h ▸ lookup_setUsed_self ps pin (some t) e hl
          have hlookrel : List.lookup pin (release ps' pin) = some ⟨e.desc, none⟩ :=
            lookup_setUsed_self ps' pin none ⟨e.desc, some t⟩ hlook'
          refine ⟨e, rfl, hlook', ?_, ?_, ?_, ?_⟩
          · unfold pin_check
            rw [hlook']
            simp
          · intro t' ht'
            unfold acquire pin_available
            rw [hlook']
            simp [ht']
          · intro t' ht'
            unfold acquire pin_available
            rw [hlook']
            simp [ht']
          · intro t'
            unfold pin_available
            rw [hlookrel]
            by_cases hk : hasKey e.desc t' = false <;> simp [hk]

theorem acquire_exclusion_witness :
    acquire nanopiPins 22 PType.gpio = .ok (setUsed nanopiPins 22 (some PType.gpio)) ∧
    (∃ e : PinEntry, List.lookup 22 nanopiPins = some e ∧
      List.lookup 22 (setUsed nanopiPins 22 (some PType.gpio)) = some ⟨e.desc, some PType.gpio⟩ ∧
      pin_check (setUsed nanopiPins 22 (some PType.gpio)) 22 PType.gpio = .ok () ∧
      (∀ t', hasKey e.desc t' = true →
        acquire (setUsed nanopiPins 22 (some PType.gpio)) 22 t' = .error .pinInUse) ∧
      (∀ t', hasKey e.desc t' = false →
        acquire (setUsed nanopiPins 22 (some PType.gpio)) 22 t' = .error .badFuncType) ∧
      (∀ t', pin_available (release (setUsed nanopiPins 22 (some PType.gpio)) 22) 22 t' ≠
        .error .pinInUse)) :=
  ⟨by decide, acquire_exclusion nanopiPins 22 PType.gpio _ (by decide)⟩

/-! ### C3 — GPIO output pull-override -/

/-- C3: evaluating `gpio_init` at the failing input.  On a fresh nanopi
board (all registers zero, all pins free), `gpio_init(40, 'out', 'up')`
stores the `up` encoding (1), not the `none` encoding (2), in pin 40's
2-bit pull field (bank GPG at 0x60, pull register offset 8, bit 22):
the "Safety check" `if direction.lower() == self.board.FUNC_OUT:` compares
the string `'out'` with the int `1`, which is always `False` in Python, so
the requested pull is applied even for outputs. -/
theorem gpio_init_out_pull_bug :
    (gpio_init ⟨fun _ => 0, nanopiPins⟩ 40 "out" "up").toOption.map
        (fun st => wordRead (st.mem (memBaseAddrOffset + 0x60 + GPIO_UPD_OFFSET)) 2 (11 * 2))
      = some UPDN_UP ∧ UPDN_UP ≠ UPDN_NONE := by decide

/-! ### C10 — eint_init with trigger 'none' -/

/-- C10: calling `eint_init` with trigger `'none'` on a free EINT-capable
pin passes the membership validation (whose list contains `'none'`) but
`_eint_trigger` then raises a ValueError (`badTriggerXlat`, whose accepted
list is only low/high/rising/falling/both).  At that point the pin's 2-bit
function-select field has already been written to the EINT mux value
`FUNC_EINT`, yet the pin table — including the usage flag — is unchanged:
the failed init mutates register state without acquiring the pin and
without restoring the function-select field. -/
theorem eint_init_none_leaves_mux (st : St) (pin : ℕ) (e : PinEntry) (gn L bk : ℕ)
    (hl : List.lookup pin st.pins = some e)
    (hg : e.desc.gpioNum = some gn)
    (hei : e.desc.eintNum = some L)
    (hu : e.used = none)
    (hb : List.lookup e.desc.bank nanopiBanks = some bk)
    (hw : st.mem (memBaseAddrOffset + bk + GPIO_CON_OFFSET) < 2 ^ 32) :
    ∃ st1, eint_init st pin "none" = .error (.badTriggerXlat, st1) ∧
      st1.pins = st.pins ∧
      wordRead (st1.mem (memBaseAddrOffset + bk + GPIO_CON_OFFSET)) 2 (gn * 2) = FUNC_EINT ∧
      ∀ a, a ≠ memBaseAddrOffset + bk + GPIO_CON_OFFSET → st1.mem a = st.mem a := by
  have hav : pin_available st.pins pin .eint = .ok () := by
    unfold pin_available
    rw [hl]
    dsimp only
    rw [if_neg (by simp [hasKey, hei]), if_neg (by simp [hu])]
  have haddr : gpioSeekAddr st.pins pin GPIO_CON_OFFSET =
      memBaseAddrOffset + bk + GPIO_CON_OFFSET := by
    unfold gpioSeekAddr pinBank
    rw [hl]
    dsimp only
    rw [hb]
    rfl
  have hnum : pinGpioNum st.pins pin = gn := by
    unfold pinGpioNum
    rw [hl]
    dsimp only
    rw [hg]
    rfl
  refine ⟨gpio_function st pin FUNC_EINT, ?_, rfl, ?_, ?_⟩
  · unfold eint_init
    rw [hav]
    dsimp only
    rw [if_pos (by decide)]
    rfl
  · unfold gpio_function writeWordSt
    dsimp only
    rw [haddr, hnum, if_pos rfl]
    show wordRead (gpio_mem_write2 (st.mem (memBaseAddrOffset + bk + GPIO_CON_OFFSET)) gn FUNC_EINT)
        2 (gn * 2) = FUNC_EINT
    have hww : gpio_mem_write2 (st.mem (memBaseAddrOffset + bk + GPIO_CON_OFFSET)) gn FUNC_EINT =
        wordWrite (st.mem (memBaseAddrOffset + bk + GPIO_CON_OFFSET)) 2 (gn * 2) FUNC_EINT := by
      show _ = (_ &&& compl32 ((2 ^ 2 - 1) <<< (gn * 2))) ||| ((FUNC_EINT &&& (2 ^ 2 - 1)) <<< (gn * 2))
      norm_num [gpio_mem_write2]
    rw [hww]
    exact wordRead_wordWrite_self _ _ _ _ hw (by decide)
  · intro a ha
    unfold gpio_function writeWordSt
    dsimp only
    rw [haddr, if_neg ha]

theorem eint_init_none_leaves_mux_witness :
    ∃ st1, eint_init ⟨fun _ => 0, nanopiPins⟩ 13 "none" = .error (.badTriggerXlat, st1) ∧
      st1.pins = (⟨fun _ => 0, nanopiPins⟩ : St).pins ∧
      wordRead (st1.mem (memBaseAddrOffset + 0x50 + GPIO_CON_OFFSET)) 2 (4 * 2) = FUNC_EINT ∧
      ∀ a, a ≠ memBaseAddrOffset + 0x50 + GPIO_CON_OFFSET →
        st1.mem a = (⟨fun _ => 0, nanopiPins⟩ : St).mem a :=
  eint_init_none_leaves_mux ⟨fun _ => 0, nanopiPins⟩ 13 ⟨⟨"GPF", some 4, none, some 4⟩, none⟩
    4 4 0x50 (by decide) rfl rfl rfl (by decide) (by norm_num)

/-! ### C6 — PWM duty cycle -/

/-- C6 counterexample: with counter 1 and tick 20 ns (period 20 ns), a
negative `duty_ns = -100` does not fail (the only check is
`period_ns < duty_cycle_ns`), and the computed
`duty_counter = round(duty_ns / tick_ns) = -5` lies outside `[0, counter]`;
the compare register receives its two's-complement low 16 bits, 65531. -/
theorem pwm_duty_cycle_counterexample :
    pwm_duty_cycle 0 1 (1 / 50000000) (-100) = .ok (65531, 0) ∧
    pyRound ((-100 : ℚ) / ((1 / 50000000 : ℚ) * 1000000000)) = -5 ∧
    ¬(0 ≤ (-5 : ℤ)) := by
  refine ⟨by decide, by decide, by decide⟩

/-- C6 (amended): for a configured timing with counter C and tick length
`freq_s` seconds (period_ns = C * freq_s * 1e9), `_pwm_duty_cycle` fails
with the duty-exceeds-period error exactly when `duty_ns > period_ns`, and
the error path carries the compare register unchanged (the raise precedes
the `_pwm_compare` write).  Otherwise it stores
`duty_counter = round(duty_ns / tick_ns)` in the low 16 bits of the
compare register; provided additionally `0 ≤ duty_ns`, that value lies in
`[0, C]`; `duty_ns = 0` yields 0 and `duty_ns = period_ns` yields C. -/
theorem pwm_duty_cycle_spec (compareReg counter : ℕ) (freqS dutyCycleNs : ℚ)
    (hf : 0 < freqS) (hcnt : counter < 65536) (hreg : compareReg < 2 ^ 32) :
    ((∃ p, pwm_duty_cycle compareReg counter freqS dutyCycleNs = .error p) ↔
      (counter : ℚ) * freqS * 1000000000 < dutyCycleNs) ∧
    (∀ p, pwm_duty_cycle compareReg counter freqS dutyCycleNs = .error p →
      p = (.dutyLong, compareReg)) ∧
    (0 ≤ dutyCycleNs → dutyCycleNs ≤ (counter : ℚ) * freqS * 1000000000 →
      0 ≤ pyRound (dutyCycleNs / (freqS * 1000000000)) ∧
      pyRound (dutyCycleNs / (freqS * 1000000000)) ≤ (counter : ℤ) ∧
      (∃ res, pwm_duty_cycle compareReg counter freqS dutyCycleNs = .ok res ∧
        wordRead res.1 16 0 = (pyRound (dutyCycleNs / (freqS * 1000000000))).toNat)) ∧
    (dutyCycleNs = 0 → pyRound (dutyCycleNs / (freqS * 1000000000)) = 0) ∧
    (dutyCycleNs = (counter : ℚ) * freqS * 1000000000 →
      pyRound (dutyCycleNs / (freqS * 1000000000)) = (counter : ℤ)) := by
  have hfreqNs : (0 : ℚ) < freqS * 1000000000 := by positivity
  refine ⟨?_, ?_, ?_, ?_, ?_⟩
  · constructor
    · rintro ⟨p, hp⟩
      unfold pwm_duty_cycle at hp
      by_cases hlt : (counter : ℚ) * freqS * 1000000000 < dutyCycleNs
      · exact hlt
      · rw [if_neg hlt] at hp
        cases hp
    · intro hlt
      unfold pwm_duty_cycle
      rw [if_pos hlt]
      exact ⟨(.dutyLong, compareReg), rfl⟩
  · intro p hp
    unfold pwm_duty_cycle at hp
    by_cases hlt : (counter : ℚ) * freqS * 1000000000 < dutyCycleNs
    · rw [if_pos hlt] at hp
      rw [Except.error.injEq] at hp
      exact hp.symm
    · rw [if_neg hlt] at hp
      cases hp
  · intro h0 hle
    have hx0 : (0 : ℚ) ≤ dutyCycleNs / (freqS * 1000000000) :=
      div_nonneg h0 (le_of_lt hfreqNs)
    have hxc : dutyCycleNs / (freqS * 1000000000) ≤ ((counter : ℤ) : ℚ) := by
      rw [div_le_iff₀ hfreqNs]
      push_cast
      nlinarith [hle]
    have hr0 : 0 ≤ pyRound (dutyCycleNs / (freqS * 1000000000)) := pyRound_nonneg _ hx0
    have hrc : pyRound (dutyCycleNs / (freqS * 1000000000)) ≤ (counter : ℤ) :=
      pyRound_le_of_le_int _ _ hx0 hxc
    refine ⟨hr0, hrc, ?_⟩
    have hmod : pyRound (dutyCycleNs / (freqS * 1000000000)) % 65536 =
        pyRound (dutyCycleNs / (freqS * 1000000000)) := by
      apply Int.emod_eq_of_lt hr0
      calc pyRound (dutyCycleNs / (freqS * 1000000000)) ≤ (counter : ℤ) := hrc
        _ < 65536 := by exact_mod_cast hcnt
    have htn : (pyRound (dutyCycleNs / (freqS * 1000000000))).toNat < 2 ^ 16 := by
      have : pyRound (dutyCycleNs / (freqS * 1000000000)) < 65536 := by
        calc pyRound (dutyCycleNs / (freqS * 1000000000)) ≤ (counter : ℤ) := hrc
          _ < 65536 := by exact_mod_cast hcnt
      omega
    refine ⟨((compareReg &&& compl32 0xFFFF) |||
        (pyRound (dutyCycleNs / (freqS * 1000000000)) % 65536).toNat,
        (pyRound (dutyCycleNs / (freqS * 1000000000)) : ℚ) * freqS * 1000000000 - dutyCycleNs),
        ?_, ?_⟩
    · unfold pwm_duty_cycle
      rw [if_neg (not_lt.2 hle)]
    · show wordRead ((compareReg &&& compl32 0xFFFF) |||
          (pyRound (dutyCycleNs / (freqS * 1000000000)) % 65536).toNat) 16 0 = _
      rw [hmod]
      have hww : (compareReg &&& compl32 0xFFFF) |||
          (pyRound (dutyCycleNs / (freqS * 1000000000))).toNat =
          wordWrite compareReg 16 0 (pyRound (dutyCycleNs / (freqS * 1000000000))).toNat := by
        unfold wordWrite
        rw [Nat.shiftLeft_zero, Nat.shiftLeft_zero]
        congr 1
        apply Nat.eq_of_testBit_eq
        intro i
        simp only [Nat.testBit_land, Nat.testBit_two_pow_sub_one]
        by_cases hi : i < 16
        · simp [hi]
        · have hfalse : (pyRound (dutyCycleNs / (freqS * 1000000000))).toNat.testBit i = false :=
            Nat.testBit_lt_two_pow
              (lt_of_lt_of_le htn (Nat.pow_le_pow_right (by norm_num) (by omega : 16 ≤ i)))
          simp [hi, hfalse]
      rw [hww]
      exact wordRead_wordWrite_self _ _ _ _ hreg htn
  · intro h0
    rw [h0, zero_div]
    exact_mod_cast pyRound_intCast 0 (le_refl 0)
  · intro hper
    rw [hper, mul_assoc, mul_div_cancel_right₀ _ (ne_of_gt hfreqNs)]
    have : ((counter : ℤ) : ℚ) = (counter : ℚ) := by push_cast; rfl
    rw [← this]
    exact pyRound_intCast _ (by positivity)

theorem pwm_duty_cycle_spec_witness :
    ((0 : ℚ) < 1 / 50000000) ∧ ((100 : ℕ) < 65536) ∧ ((0 : ℕ) < 2 ^ 32) ∧
    (((∃ p, pwm_duty_cycle 0 100 (1 / 50000000) 1000 = .error p) ↔
      (100 : ℚ) * (1 / 50000000) * 1000000000 < 1000) ∧
    (∀ p, pwm_duty_cycle 0 100 (1 / 50000000) 1000 = .error p →
      p = (.dutyLong, 0)) ∧
    ((0 : ℚ) ≤ 1000 → (1000 : ℚ) ≤ (100 : ℚ) * (1 / 50000000) * 1000000000 →
      0 ≤ pyRound ((1000 : ℚ) / ((1 / 50000000) * 1000000000)) ∧
      pyRound ((1000 : ℚ) / ((1 / 50000000) * 1000000000)) ≤ ((100 : ℕ) : ℤ) ∧
      (∃ res, pwm_duty_cycle 0 100 (1 / 50000000) 1000 = .ok res ∧
        wordRead res.1 16 0 = (pyRound ((1000 : ℚ) / ((1 / 50000000) * 1000000000))).toNat)) ∧
    ((1000 : ℚ) = 0 → pyRound ((1000 : ℚ) / ((1 / 50000000) * 1000000000)) = 0) ∧
    ((1000 : ℚ) = (100 : ℚ) * (1 / 50000000) * 1000000000 →
      pyRound ((1000 : ℚ) / ((1 / 50000000) * 1000000000)) = ((100 : ℕ) : ℤ))) :=
  ⟨by norm_num, by norm_num, by norm_num,
    pwm_duty_cycle_spec 0 100 (1 / 50000000) 1000 (by norm_num) (by norm_num) (by norm_num)⟩

/-! ### PWM solver analysis -/

theorem pwmStep_eq_cand (clk : ℚ) (divs : List ℚ) (P : ℚ) (di pr : ℕ) (b : PwmBest) :
    pwmStep clk divs P di pr b =
      match pwmCand clk divs P di pr with
      | none => b
      | some c => selStep b c := by
  unfold pwmStep pwmCand selStep candBest
  by_cases h : P ≤ 1 / (clk / ((pr : ℚ) + 1) / divs.getD di 0) * 65535 * 1000000000 ∧
      1 / (clk / ((pr : ℚ) + 1) / divs.getD di 0) * 1000000000 ≤ P
  · simp only [if_pos h]
  · simp only [if_neg h]

theorem pwmCand_diff_bounds (clk : ℚ) (divs : List ℚ) (P : ℚ) (di pr : ℕ) (c : PwmCand)
    (h : pwmCand clk divs P di pr = some c) : 0 ≤ c.diff ∧ c.diff ≤ 1 / 2 := by
  unfold pwmCand at h
  by_cases hc : P ≤ 1 / (clk / ((pr : ℚ) + 1) / divs.getD di 0) * 65535 * 1000000000 ∧
      1 / (clk / ((pr : ℚ) + 1) / divs.getD di 0) * 1000000000 ≤ P
  · rw [if_pos hc, Option.some.injEq] at h
    subst h
    exact ⟨abs_nonneg _, pyRound_sub_abs_le _⟩
  · rw [if_neg hc] at h
    cases h

theorem foldl_pwmStep_filterMap (clk : ℚ) (divs : List ℚ) (P : ℚ) :
    ∀ (l : List (ℕ × ℕ)) (b : PwmBest),
      l.foldl (fun b pd => pwmStep clk divs P pd.1 pd.2 b) b =
        (l.filterMap fun pd => pwmCand clk divs P pd.1 pd.2).foldl selStep b := by
  intro l
  induction l with
  | nil => intro b; rfl
  | cons hd tl ih =>
    intro b
    rw [List.foldl_cons, List.filterMap_cons]
    cases h : pwmCand clk divs P hd.1 hd.2 with
    | none => rw [pwmStep_eq_cand, h]; exact ih b
    | some c => rw [pwmStep_eq_cand, h, List.foldl_cons]; exact ih (selStep b c)

theorem pwmLoopPre_eq_foldl (clk : ℚ) (divs : List ℚ) (P : ℚ) (di : ℕ) :
    ∀ (n : ℕ) (b : PwmBest),
      pwmLoopPre clk divs P di n b =
        ((List.range (n + 1)).reverse).foldl (fun b pr => pwmStep clk divs P di pr b) b := by
  intro n
  induction n with
  | zero => intro b; rfl
  | succ n ih =>
    intro b
    rw [pwmLoopPre, ih]
    conv_rhs => rw [List.range_succ, List.reverse_append]
    rfl

theorem pwmLoopDiv_eq_foldl (clk : ℚ) (divs : List ℚ) (P : ℚ) :
    ∀ (m : ℕ) (b : PwmBest),
      pwmLoopDiv clk divs P m b =
        (pwmEnum (m + 1)).foldl (fun b pd => pwmStep clk divs P pd.1 pd.2 b) b := by
  intro m
  induction m with
  | zero =>
    intro b
    rw [pwmLoopDiv, pwmLoopPre_eq_foldl]
    show _ = (((List.range 1).reverse).flatMap fun di =>
      ((List.range 256).reverse).map fun pr => (di, pr)).foldl _ b
    rw [show (List.range 1).reverse = [0] from rfl]
    rw [List.flatMap_cons, List.flatMap_nil, List.append_nil, List.foldl_map]
  | succ m ih =>
    intro b
    rw [pwmLoopDiv, ih]
    show _ = ((((List.range (m + 2)).reverse).flatMap fun di =>
      ((List.range 256).reverse).map fun pr => (di, pr)).foldl _ b)
    rw [List.range_succ, List.reverse_append]
    rw [show ([m + 1].reverse ++ (List.range (m + 1)).reverse) =
      (m + 1) :: (List.range (m + 1)).reverse from rfl]
    rw [List.flatMap_cons, List.foldl_append, List.foldl_map]
    rw [pwmLoopPre_eq_foldl]
    rfl

theorem foldl_selStep_candBest :
    ∀ (cs : List PwmCand) (m : PwmCand),
      cs.foldl selStep (candBest m) = candBest (pickBestFrom m cs) := by
  intro cs
  induction cs with
  | nil => intro m; rfl
  | cons c cs ih =>
    intro m
    rw [List.foldl_cons, pickBestFrom]
    have hsel : selStep (candBest m) c = candBest (if c.diff < m.diff then c else m) := by
      unfold selStep candBest
      by_cases h : c.diff < m.diff <;> simp [h]
    rw [hsel, ih]

theorem pickBestFrom_spec :
    ∀ (cs : List PwmCand) (m : PwmCand),
      (pickBestFrom m cs).diff ≤ m.diff ∧
      (∀ c ∈ cs, (pickBestFrom m cs).diff ≤ c.diff) ∧
      (pickBestFrom m cs = m ∨ pickBestFrom m cs ∈ cs) ∧
      List.find? (fun c => decide (c.diff ≤ (pickBestFrom m cs).diff)) (m :: cs) =
        some (pickBestFrom m cs) := by
  intro cs
  induction cs with
  | nil =>
    intro m
    refine ⟨le_refl _, by simp, Or.inl rfl, ?_⟩
    rw [List.find?_cons_of_pos _ (by simp [pickBestFrom])]
    rfl
  | cons c cs ih =>
    intro m
    rw [pickBestFrom]
    by_cases hc : c.diff < m.diff
    · rw [if_pos hc]
      obtain ⟨h1, h2, h3, h4⟩ := ih c
      refine ⟨h1.trans hc.le, ?_, ?_, ?_⟩
      · intro c' hc'
        rcases List.mem_cons.1 hc' with h | h
        · rw [h]; exact h1
        · exact h2 c' h
      · right
        rcases h3 with h | h
        · rw [h]; exact List.mem_cons_self c cs
        · exact List.mem_cons_of_mem c h
      · rw [List.find?_cons_of_neg _ (by simp; linarith [h1])]
        exact h4
    · rw [if_neg hc]
      push_neg at hc
      obtain ⟨h1, h2, h3, h4⟩ := ih m
      refine ⟨h1, ?_, ?_, ?_⟩
      · intro c' hc'
        rcases List.mem_cons.1 hc' with h | h
        · rw [h]; exact h1.trans hc
        · exact h2 c' h
      · rcases h3 with h | h
        · exact Or.inl h
        · exact Or.inr (List.mem_cons_of_mem c h)
      · by_cases hm : m.diff ≤ (pickBestFrom m cs).diff
        · have hem : pickBestFrom m cs = m := by
            rw [List.find?_cons_of_pos _ (by simp [hm])] at h4
            exact (Option.some.inj h4).symm
          rw [List.find?_cons_of_pos _ (by simp [hm])]
          rw [hem]
        · push_neg at hm
          rw [List.find?_cons_of_neg _ (by simp; linarith)] at h4
          rw [List.find?_cons_of_neg _ (by simp; linarith)]
          rw [List.find?_cons_of_neg _ (by simp; linarith [h1.trans hc])]
          exact h4

theorem pickBestFrom_of_no_lt :
    ∀ (cs : List PwmCand) (m : PwmCand),
      (∀ c ∈ cs, ¬(c.diff < m.diff)) → pickBestFrom m cs = m := by
  intro cs
  induction cs with
  | nil => intro m _; rfl
  | cons c cs ih =>
    intro m h
    rw [pickBestFrom, if_neg (h c (List.mem_cons_self c cs))]
    exact ih m fun c' hc' => h c' (List.mem_cons_of_mem c hc')

/-- Characterization of `_pwm_period` past the range check: the loop is
the first-found strict-minimum selection over the feasible candidates in
enumeration order. -/
theorem pwmPeriodCalc_search (clk : ℚ) (divs : List ℚ) (P : ℚ) (hne : divs ≠ [])
    (hrange : ¬(1 / (clk / 256 / divs.getD (divs.length - 1) 0) * 65535 * 1000000000 < P ∨
        1 / (clk / divs.getD 0 0) * 1000000000 > P)) :
    (pwmCands clk divs P = [] ∧ pwmPeriodCalc clk divs P = .error .noSolution) ∨
    (∃ c0 cs', pwmCands clk divs P = c0 :: cs' ∧
      pwmPeriodCalc clk divs P =
        .ok ((pickBestFrom c0 cs').counter, (pickBestFrom c0 cs').prescaler,
             (pickBestFrom c0 cs').divider,
             1 / (clk / (((pickBestFrom c0 cs').prescaler : ℚ) + 1) /
                 divs.getD (pickBestFrom c0 cs').divider 0) *
               ((pickBestFrom c0 cs').counter : ℚ) * 1000000000 - P)) := by
  have hlen : divs.length - 1 + 1 = divs.length :=
    Nat.succ_pred_eq_of_pos (List.length_pos.2 hne)
  have hbest : pwmLoopDiv clk divs P (divs.length - 1) ⟨65535, none, none, none⟩ =
      (pwmCands clk divs P).foldl selStep ⟨65535, none, none, none⟩ := by
    rw [pwmLoopDiv_eq_foldl, hlen, foldl_pwmStep_filterMap]
    rfl
  cases hcs : pwmCands clk divs P with
  | nil =>
    left
    refine ⟨rfl, ?_⟩
    unfold pwmPeriodCalc
    rw [if_neg hrange, hbest, hcs]
    rfl
  | cons c0 cs' =>
    right
    have hc0mem : c0 ∈ pwmCands clk divs P := by rw [hcs]; exact List.mem_cons_self c0 cs'
    have hc0diff : c0.diff < 65535 := by
      obtain ⟨pd, _, hpd⟩ := List.mem_filterMap.1 hc0mem
      have := pwmCand_diff_bounds clk divs P pd.1 pd.2 c0 hpd
      linarith [this.2]
    have hsel0 : selStep ⟨65535, none, none, none⟩ c0 = candBest c0 := by
      unfold selStep
      rw [if_pos hc0diff]
    refine ⟨c0, cs', rfl, ?_⟩
    unfold pwmPeriodCalc
    rw [if_neg hrange, hbest, hcs, List.foldl_cons, hsel0, foldl_selStep_candBest]
    rfl

/-! ### C4 — period range check -/

/-- C4: `_pwm_period` fails with the period-out-of-range error if and only
if `period_ns` lies outside `[min_period_ns, max_period_ns]`, where
`max_period_ns = tick_ns(prescaler factor 256, largest divider) * 65535`
and `min_period_ns = tick_ns(prescaler factor 1, smallest divider) * 1`
(`specMaxPeriodNs`/`specMinPeriodNs`, following the spec's formulas; the
divider table is ascending, so smallest = first and largest = last).
Periods exactly equal to either bound are accepted. -/
theorem pwm_period_range_check (clk : ℚ) (divs : List ℚ) (P : ℚ) :
    pwmPeriodCalc clk divs P = .error .periodRange ↔
      (P < specMinPeriodNs clk divs ∨ specMaxPeriodNs clk divs < P) := by
  have hmin : specMinPeriodNs clk divs = 1 / (clk / divs.getD 0 0) * 1000000000 := by
    unfold specMinPeriodNs specTickNs
    norm_num
    simp only [div_eq_mul_inv, mul_inv_rev, inv_inv, one_mul, mul_one]
    ring
  have hmax : specMaxPeriodNs clk divs =
      1 / (clk / 256 / divs.getD (divs.length - 1) 0) * 65535 * 1000000000 := by
    unfold specMaxPeriodNs specTickNs
    norm_num
    simp only [div_eq_mul_inv, mul_inv_rev, inv_inv, one_mul, mul_one]
    ring
  by_cases hc : 1 / (clk / 256 / divs.getD (divs.length - 1) 0) * 65535 * 1000000000 < P ∨
      1 / (clk / divs.getD 0 0) * 1000000000 > P
  · have hrhs : P < specMinPeriodNs clk divs ∨ specMaxPeriodNs clk divs < P := by
      rcases hc with h | h
      · right; rw [hmax]; exact h
      · left; rw [hmin]; exact h
    unfold pwmPeriodCalc
    rw [if_pos hc]
    simp [hrhs]
  · have hrhs : ¬(P < specMinPeriodNs clk divs ∨ specMaxPeriodNs clk divs < P) := by
      rw [hmin, hmax]
      push_neg
      push_neg at hc
      exact ⟨hc.2, hc.1⟩
    unfold pwmPeriodCalc
    rw [if_neg hc]
    simp only [hrhs, iff_false]
    cases hb : (pwmLoopDiv clk divs P (divs.length - 1) ⟨65535, none, none, none⟩).counter with
    | none => simp [hb]
    | some c => simp [hb]

/-! ### C1 — solver optimality and tie-break -/

/-- C1: whenever the range check passes and `_pwm_period` returns a
configuration `(counter c, prescaler p, divider index di)`, that triple is
a feasible candidate (so `c = round(period_ns / tick_ns)` for its pair),
its error `dq = |c - period_ns/tick_ns|` is minimal over all feasible
(prescaler, divider) pairs, and it is the first candidate attaining that
minimum in the fixed enumeration order — prescaler descending from 255 to
0 inside divider index descending from the last table index to 0
(`pwmEnum`/`pwmCands` order). -/
theorem pwm_period_optimal (clk : ℚ) (divs : List ℚ) (P : ℚ) (c : ℤ) (p di : ℕ) (e : ℚ)
    (hne : divs ≠ [])
    (h : pwmPeriodCalc clk divs P = .ok (c, p, di, e)) :
    ∃ dq : ℚ, (⟨di, p, c, dq⟩ : PwmCand) ∈ pwmCands clk divs P ∧
      (∀ c' ∈ pwmCands clk divs P, dq ≤ c'.diff) ∧
      List.find? (fun c' => decide (c'.diff ≤ dq)) (pwmCands clk divs P) =
        some ⟨di, p, c, dq⟩ := by
  have hrange : ¬(1 / (clk / 256 / divs.getD (divs.length - 1) 0) * 65535 * 1000000000 < P ∨
      1 / (clk / divs.getD 0 0) * 1000000000 > P) := by
    intro hc
    unfold pwmPeriodCalc at h
    rw [if_pos hc] at h
    cases h
  rcases pwmPeriodCalc_search clk divs P hne hrange with ⟨_, herr⟩ | ⟨c0, cs', hcs, hok⟩
  · rw [herr] at h; cases h
  · rw [hok] at h
    rw [Except.ok.injEq] at h
    simp only [Prod.mk.injEq] at h
    obtain ⟨hc, hp, hdi, _⟩ := h
    obtain ⟨h1, h2, h3, h4⟩ := pickBestFrom_spec cs' c0
    refine ⟨(pickBestFrom c0 cs').diff, ?_, ?_, ?_⟩
    · have : (⟨di, p, c, (pickBestFrom c0 cs').diff⟩ : PwmCand) = pickBestFrom c0 cs' := by
        rw [← hc, ← hp, ← hdi]
      rw [this, hcs]
      rcases h3 with hh | hh
      · rw [hh]; exact List.mem_cons_self c0 cs'
      · exact List.mem_cons_of_mem c0 hh
    · intro c' hc'
      rw [hcs] at hc'
      rcases List.mem_cons.1 hc' with hh | hh
      · rw [hh]; exact h1
      · exact h2 c' hh
    · have : (⟨di, p, c, (pickBestFrom c0 cs').diff⟩ : PwmCand) = pickBestFrom c0 cs' := by
        rw [← hc, ← hp, ← hdi]
      rw [this, hcs]
      exact h4

theorem pwm_period_optimal_witness :
    (([1] : List ℚ) ≠ []) ∧
    pwmPeriodCalc 1000000000 [1] 100 = .ok (1, 99, 0, 0) ∧
    (∃ dq : ℚ, (⟨0, 99, 1, dq⟩ : PwmCand) ∈ pwmCands 1000000000 [1] 100 ∧
      (∀ c' ∈ pwmCands 1000000000 [1] 100, dq ≤ c'.diff) ∧
      List.find? (fun c' => decide (c'.diff ≤ dq)) (pwmCands 1000000000 [1] 100) =
        some ⟨0, 99, 1, dq⟩) := by
  have hne : ([1] : List ℚ) ≠ [] := by simp
  have h : pwmPeriodCalc 1000000000 [1] 100 = .ok (1, 99, 0, 0) := by decide
  exact ⟨hne, h, pwm_period_optimal 1000000000 [1] 100 1 99 0 0 hne h⟩

/-! ### C5 — solver totality on the nanopi configuration -/

theorem pwmStep_absorb (clk : ℚ) (divs : List ℚ) (P : ℚ) (di pr : ℕ) (b : PwmBest)
    (hb : b.diff ≤ 0) : pwmStep clk divs P di pr b = b := by
  rw [pwmStep_eq_cand]
  cases h : pwmCand clk divs P di pr with
  | none => rfl
  | some c =>
    show selStep b c = b
    unfold selStep
    rw [if_neg (by have := (pwmCand_diff_bounds clk divs P di pr c h).1; linarith)]

theorem pwmLoopPre_absorb (clk : ℚ) (divs : List ℚ) (P : ℚ) (di : ℕ) :
    ∀ (n : ℕ) (b : PwmBest), b.diff ≤ 0 → pwmLoopPre clk divs P di n b = b := by
  intro n
  induction n with
  | zero => intro b hb; rw [pwmLoopPre, pwmStep_absorb clk divs P di 0 b hb]
  | succ n ih =>
    intro b hb
    rw [pwmLoopPre, pwmStep_absorb clk divs P di (n + 1) b hb]
    exact ih b hb

theorem pwmLoopDiv_absorb (clk : ℚ) (divs : List ℚ) (P : ℚ) :
    ∀ (m : ℕ) (b : PwmBest), b.diff ≤ 0 → pwmLoopDiv clk divs P m b = b := by
  intro m
  induction m with
  | zero => intro b hb; rw [pwmLoopDiv, pwmLoopPre_absorb clk divs P 0 255 b hb]
  | succ m ih =>
    intro b hb
    rw [pwmLoopDiv, pwmLoopPre_absorb clk divs P (m + 1) 255 b hb]
    exact ih b hb

theorem mem_pwmEnum (di pr n : ℕ) (h1 : di < n) (h2 : pr < 256) : (di, pr) ∈ pwmEnum n := by
  unfold pwmEnum
  rw [List.mem_flatMap]
  refine ⟨di, ?_, ?_⟩
  · rw [List.mem_reverse, List.mem_range]; exact h1
  · rw [List.mem_map]
    exact ⟨pr, by rw [List.mem_reverse, List.mem_range]; exact h2, rfl⟩

theorem pwmPeriodCalc_ok_of_cand (clk : ℚ) (divs : List ℚ) (P : ℚ) (hne : divs ≠ [])
    (hrange : ¬(1 / (clk / 256 / divs.getD (divs.length - 1) 0) * 65535 * 1000000000 < P ∨
        1 / (clk / divs.getD 0 0) * 1000000000 > P))
    (cd : PwmCand) (hcd : cd ∈ pwmCands clk divs P) :
    ∃ out, pwmPeriodCalc clk divs P = .ok out := by
  rcases pwmPeriodCalc_search clk divs P hne hrange with ⟨hnil, _⟩ | ⟨c0, cs', hcs, hok⟩
  · rw [hnil] at hcd; cases hcd
  · exact ⟨_, hok⟩

theorem nanopi_cand0 (P : ℚ) (h1 : 20 ≤ P) (h2 : P ≤ 1310700) :
    ∃ cd, pwmCand nanopiPwmClk nanopiPwmDividers P 0 0 = some cd := by
  unfold pwmCand
  rw [if_pos ?_]
  · exact ⟨_, rfl⟩
  · constructor
    · show P ≤ 1 / (nanopiPwmClk / (((0 : ℕ) : ℚ) + 1) / nanopiPwmDividers.getD 0 0) *
        65535 * 1000000000
      norm_num [nanopiPwmClk, nanopiPwmDividers]
      linarith
    · show 1 / (nanopiPwmClk / (((0 : ℕ) : ℚ) + 1) / nanopiPwmDividers.getD 0 0) *
        1000000000 ≤ P
      norm_num [nanopiPwmClk, nanopiPwmDividers]
      linarith

theorem nanopi_cand16 (pr : ℕ) (P : ℚ) (h1 : 320 * ((pr : ℚ) + 1) ≤ P)
    (h2 : P ≤ 20971200 * ((pr : ℚ) + 1)) :
    ∃ cd, pwmCand nanopiPwmClk nanopiPwmDividers P 4 pr = some cd := by
  have hpr : (0 : ℚ) < (pr : ℚ) + 1 := by positivity
  have htickmin : 1 / (nanopiPwmClk / ((pr : ℚ) + 1) / nanopiPwmDividers.getD 4 0) *
      1000000000 = 320 * ((pr : ℚ) + 1) := by
    show 1 / ((50000000 : ℚ) / ((pr : ℚ) + 1) / 16) * 1000000000 = _
    rw [div_div, one_div_div]
    field_simp
    ring
  have htickmax : 1 / (nanopiPwmClk / ((pr : ℚ) + 1) / nanopiPwmDividers.getD 4 0) *
      65535 * 1000000000 = 20971200 * ((pr : ℚ) + 1) := by
    show 1 / ((50000000 : ℚ) / ((pr : ℚ) + 1) / 16) * 65535 * 1000000000 = _
    rw [div_div, one_div_div]
    field_simp
    ring
  unfold pwmCand
  rw [if_pos ?_]
  · exact ⟨_, rfl⟩
  · exact ⟨by rw [htickmax]; exact h2, by rw [htickmin]; exact h1⟩

/-- C5: with the board constants of the spec (`clock_hz = 50_000_000`,
`dividers = [1,2,4,8,16]`), whenever the initial range check passes —
`period_ns` lies within the solver's `[min_period_ns, max_period_ns]` —
the search space contains a feasible candidate and the solver returns a
configuration, so the no-feasible-solution branch is unreachable; and for
`period_ns = 1_000_000` it returns counter 25, prescaler 124, divider
index 4 (divider 16), whose reconstructed period `counter * tick_ns` is
within one tick of 1,000,000 ns (here exactly 1,000,000 ns, residual 0). -/
theorem pwm_solver_total_nanopi :
    (∀ P : ℚ,
      1 / (nanopiPwmClk / nanopiPwmDividers.getD 0 0) * 1000000000 ≤ P →
      P ≤ 1 / (nanopiPwmClk / 256 / nanopiPwmDividers.getD (nanopiPwmDividers.length - 1) 0) *
            65535 * 1000000000 →
      ∃ out, pwmPeriodCalc nanopiPwmClk nanopiPwmDividers P = .ok out) ∧
    (pwmPeriodCalc nanopiPwmClk nanopiPwmDividers 1000000 = .ok (25, 124, 4, 0) ∧
      |(25 : ℚ) * (1 / (nanopiPwmClk / ((124 : ℚ) + 1) / nanopiPwmDividers.getD 4 0) *
          1000000000) - 1000000| ≤
        1 / (nanopiPwmClk / ((124 : ℚ) + 1) / nanopiPwmDividers.getD 4 0) * 1000000000) := by
  have he1 : 1 / (nanopiPwmClk / nanopiPwmDividers.getD 0 0) * 1000000000 = (20 : ℚ) := by
    norm_num [nanopiPwmClk, nanopiPwmDividers]
  have he2 : 1 / (nanopiPwmClk / 256 / nanopiPwmDividers.getD (nanopiPwmDividers.length - 1) 0) *
      65535 * 1000000000 = (5368627200 : ℚ) := by
    norm_num [nanopiPwmClk, nanopiPwmDividers]
  have hne : nanopiPwmDividers ≠ [] := by simp [nanopiPwmDividers]
  constructor
  · intro P hPmin hPmax
    rw [he1] at hPmin
    rw [he2] at hPmax
    have hrange : ¬(1 / (nanopiPwmClk / 256 /
        nanopiPwmDividers.getD (nanopiPwmDividers.length - 1) 0) * 65535 * 1000000000 < P ∨
        1 / (nanopiPwmClk / nanopiPwmDividers.getD 0 0) * 1000000000 > P) := by
      rw [he1, he2]
      push_neg
      exact ⟨hPmax, hPmin⟩
    have hlen : nanopiPwmDividers.length = 5 := rfl
    by_cases hsmall : P ≤ 1310700
    · obtain ⟨cd, hcd⟩ := nanopi_cand0 P hPmin hsmall
      refine pwmPeriodCalc_ok_of_cand _ _ _ hne hrange cd ?_
      unfold pwmCands
      rw [hlen]
      exact List.mem_filterMap.2 ⟨(0, 0), mem_pwmEnum 0 0 5 (by norm_num) (by norm_num), hcd⟩
    · push_neg at hsmall
      set k : ℤ := ⌈P / 20971200⌉ with hk
      have hkpos : (1 : ℤ) ≤ k := by
        have : (0 : ℚ) < P / 20971200 := by positivity
        exact Int.ceil_pos.2 this
      have hk256 : k ≤ 256 := by
        apply Int.ceil_le.2
        rw [div_le_iff₀ (by norm_num : (0 : ℚ) < 20971200)]
        push_cast
        linarith
      have hcl : P / 20971200 ≤ (k : ℚ) := Int.le_ceil _
      have hcu : (k : ℚ) < P / 20971200 + 1 := Int.ceil_lt_add_one _
      set pr : ℕ := k.toNat - 1 with hpr
      have hprlt : pr < 256 := by omega
      have hprk : (pr : ℚ) + 1 = (k : ℚ) := by
        have h1 : ((pr + 1 : ℕ) : ℤ) = k := by omega
        calc (pr : ℚ) + 1 = ((pr + 1 : ℕ) : ℚ) := by push_cast; ring
          _ = (((pr + 1 : ℕ) : ℤ) : ℚ) := by push_cast; ring
          _ = (k : ℚ) := by rw [h1]
      have hfeas1 : 320 * ((pr : ℚ) + 1) ≤ P := by
        rw [hprk]
        nlinarith [hcu, hsmall]
      have hfeas2 : P ≤ 20971200 * ((pr : ℚ) + 1) := by
        rw [hprk]
        nlinarith [hcl]
      obtain ⟨cd, hcd⟩ := nanopi_cand16 pr P hfeas1 hfeas2
      refine pwmPeriodCalc_ok_of_cand _ _ _ hne hrange cd ?_
      unfold pwmCands
      rw [hlen]
      exact List.mem_filterMap.2 ⟨(4, pr), mem_pwmEnum 4 pr 5 (by norm_num) hprlt, hcd⟩
  · have habs : ∀ (l : List ℕ) (b : PwmBest), b.diff ≤ 0 →
        l.foldl (fun b pr => pwmStep nanopiPwmClk nanopiPwmDividers 1000000 4 pr b) b = b := by
      intro l
      induction l with
      | nil => intro b _; rfl
      | cons hd tl ih =>
        intro b hb
        rw [List.foldl_cons, pwmStep_absorb _ _ _ _ _ _ hb]
        exact ih b hb
    have hsegA : ((List.range' 192 64).reverse).foldl
        (fun b pr => pwmStep nanopiPwmClk nanopiPwmDividers 1000000 4 pr b)
        ⟨65535, none, none, none⟩ = ⟨3 / 223, some 14, some 222, some 4⟩ := by decide
    have hsegB : ((List.range' 128 64).reverse).foldl
        (fun b pr => pwmStep nanopiPwmClk nanopiPwmDividers 1000000 4 pr b)
        ⟨3 / 223, some 14, some 222, some 4⟩ = ⟨1 / 142, some 22, some 141, some 4⟩ := by decide
    have hsegC : ((List.range' 64 64).reverse).foldl
        (fun b pr => pwmStep nanopiPwmClk nanopiPwmDividers 1000000 4 pr b)
        ⟨1 / 142, some 22, some 141, some 4⟩ = ⟨0, some 25, some 124, some 4⟩ := by decide
    have hsplit : (List.range (255 + 1)).reverse =
        ((List.range' 192 64).reverse ++ (List.range' 128 64).reverse ++
          (List.range' 64 64).reverse ++ (List.range' 0 64).reverse) := by decide
    have hblock : pwmLoopPre nanopiPwmClk nanopiPwmDividers 1000000 4 255
        ⟨65535, none, none, none⟩ = ⟨0, some 25, some 124, some 4⟩ := by
      rw [pwmLoopPre_eq_foldl, hsplit]
      rw [List.foldl_append, List.foldl_append, List.foldl_append]
      rw [hsegA, hsegB, hsegC]
      exact habs _ _ (le_refl 0)
    have hdiv : pwmLoopDiv nanopiPwmClk nanopiPwmDividers 1000000 4
        ⟨65535, none, none, none⟩ = ⟨0, some 25, some 124, some 4⟩ := by
      show pwmLoopDiv nanopiPwmClk nanopiPwmDividers 1000000 (3 + 1)
        ⟨65535, none, none, none⟩ = _
      rw [pwmLoopDiv, hblock]
      exact pwmLoopDiv_absorb _ _ _ 3 _ (le_refl 0)
    constructor
    · unfold pwmPeriodCalc
      rw [if_neg (by decide)]
      rw [show nanopiPwmDividers.length - 1 = 4 from rfl, hdiv]
      decide
    · norm_num [nanopiPwmClk, nanopiPwmDividers]

theorem pwm_solver_total_nanopi_witness :
    (1 / (nanopiPwmClk / nanopiPwmDividers.getD 0 0) * 1000000000 ≤ (1000000 : ℚ)) ∧
    ((1000000 : ℚ) ≤ 1 / (nanopiPwmClk / 256 /
        nanopiPwmDividers.getD (nanopiPwmDividers.length - 1) 0) * 65535 * 1000000000) ∧
    (∃ out, pwmPeriodCalc nanopiPwmClk nanopiPwmDividers 1000000 = .ok out) :=
  ⟨by norm_num [nanopiPwmClk, nanopiPwmDividers],
   by norm_num [nanopiPwmClk, nanopiPwmDividers],
   pwm_solver_total_nanopi.1 1000000 (by norm_num [nanopiPwmClk, nanopiPwmDividers])
     (by norm_num [nanopiPwmClk, nanopiPwmDividers])⟩
